import Mathlib

/-!
Verification of the `SerialPortController` request orchestrator
(`src/index.ts`, `src/types.ts` of `serialport-sync`).

The controller is a single-threaded, event-driven state machine.  We embed
its mutable instance state (`#serial.isOpen`, `#current`, `#queue`,
`#handlers`, `#binaryMode`, and the piping status of the two parsers) as a
Lean structure, and each private method (`#processQueue`,
`#handleStringData`, `#handleBufferData`, `#enableBinaryMode`,
`#disableBinaryMode`) and public method (`regexRequest`, `binaryRequest`,
`close`, `isOpen`) as a pure function from state to state plus a list of
observable outputs (promise settlements, serial writes, emitted events,
warnings).

JavaScript regular expressions are embedded as opaque decidable predicates
`String → Bool` (the orchestrator only ever calls `.test`), Node `Buffer`s
as `List Nat`, and promise handles as context identifiers `cid : Nat`
assigned in submission order; a call of `resolveFn` / `rejectFn` appears as
a `settled` output so that settlement multiplicity and order are
observable.  `setTimeout` / `clearTimeout` are modelled with explicit timer
identifiers: an armed timer is a pair `(timer id, cid)` in `activeTimers`,
a timer may fire only while its id is in that list, and `clearTimeout`
removes the id.  Event-loop interleavings are event traces: submissions,
framed line / chunk deliveries (enabled only while the port is open and the
corresponding parser is piped), timer firings, and open / close completions.
A JavaScript `TypeError` escaping a data handler is modelled by a `crash`
result that aborts the run.
-/

set_option linter.unusedVariables false

namespace SerialportSync

/-- Payload written to or read from the serial port: JS `Buffer | string`. -/
inductive SerialData where
  | text (s : String)
  | buffer (b : List Nat)
deriving DecidableEq, Repr

/-- A JS `RegExp` as the orchestrator uses it: only `.test` is ever called. -/
abbrev Pattern := String → Bool

/-- `RegexRequest` from `types.ts`. -/
structure RegexRequest where
  description : Option String := none
  data : SerialData
  timeoutMs : Nat
  successRegex : Pattern
  bufferRegex : Option Pattern := none
  errorRegex : Option Pattern := none

/-- `BinaryRequest` from `types.ts`.  `interval` and `maxBufferSize` only
configure the external `InterByteTimeoutParser`; chunk delivery is an
external event, so they do not influence the controller transition logic. -/
structure BinaryRequest where
  description : Option String := none
  data : SerialData
  interval : Nat
  maxBufferSize : Nat

/-- The `mode : 'regex' | 'binary'` tag together with the corresponding
request field of `Context` (the union type makes the other field absent). -/
inductive ReqPayload where
  | regex (r : RegexRequest)
  | binary (b : BinaryRequest)

/-- `Context` from `types.ts`.  `cid` identifies the promise handle created
by `regexRequest` / `binaryRequest` (assigned in submission order);
`timeoutFn` holds the id of the armed `setTimeout` handle, if any. -/
structure Context where
  cid : Nat
  payload : ReqPayload
  timeoutFn : Option Nat := none
  response : String := ""

/-- An unsolicited-message handler (`Handler` from `types.ts`); the callback
itself is external, so only the pattern is part of the model and an
invocation is recorded as an output. -/
structure Handler where
  pattern : Pattern

/-- The error values the orchestrator rejects with. -/
inductive ErrKind where
  | notOpen   -- `Error('Serial connection is not open')`
  | timeout   -- `Error('Timeout')`
deriving DecidableEq, Repr

/-- The value passed to `resolveFn` / `rejectFn`. -/
inductive SettleValue where
  | str (s : String)        -- `resolveFn(this.#current.response)`
  | buf (b : List Nat)      -- `resolveFn(data)` in `#handleBufferData`
  | errStr (s : String)     -- `rejectFn(this.#current.response)` on error match
  | err (e : ErrKind)       -- `rejectFn(Error(...))`
deriving DecidableEq, Repr

/-- Observable actions of the controller.  `settled cid isResolve v` records
an invocation of the context's `resolveFn` (`isResolve = true`) or
`rejectFn` (`isResolve = false`).  `wrote cid d` records
`this.#serial.write(...)` issued while activating context `cid`. -/
inductive Output where
  | settled (cid : Nat) (isResolve : Bool) (v : SettleValue)
  | wrote (cid : Nat) (d : SerialData)
  | unexpectedData (d : SerialData)   -- `this.emit('unexpected-data', ...)`
  | warned (msg : String)             -- `this.#logger.warn(...)`
  | handlerCalled (idx : Nat) (m : String)  -- `handler.callback(data)`
deriving DecidableEq, Repr

/-- The mutable state of one `SerialPortController` instance.
`linePiped` / `binPiped` record whether the `ReadlineParser`, respectively
the `InterByteTimeoutParser` instance currently stored in `#binaryParser`,
is piped from the serial port. -/
structure Ctrl where
  serialOpen : Bool
  current : Option Context
  queue : List Context
  handlers : List Handler
  binaryMode : Bool
  linePiped : Bool
  binPiped : Bool
  nextTimerId : Nat
  activeTimers : List (Nat × Nat)  -- (timer id, cid of the context it rejects)
  nextCid : Nat

/-- The constructor: port not yet opened (`autoOpen: false`), readline parser
piped, binary mode off, no current context, empty queue. -/
def initCtrl (handlers : List Handler) : Ctrl :=
  { serialOpen := false
    current := none
    queue := []
    handlers := handlers
    binaryMode := false
    linePiped := true
    binPiped := false
    nextTimerId := 0
    activeTimers := []
    nextCid := 0 }

/-- `isOpen()`. -/
def isOpen (c : Ctrl) : Bool := c.serialOpen

/-- Outcome of the promise returned by `close()`. -/
inductive CloseOutcome where
  | resolved
  | rejected
deriving DecidableEq, Repr

/-- `close()`: if the port is open, invoke the transport close operation
(`transportCloseOk` says whether its callback reports an error); otherwise
resolve immediately.  The returned `Bool` records whether
`this.#serial.close` was invoked.  On a failed transport close the port
state is left unchanged (the spec does not constrain the rejected path). -/
def close (c : Ctrl) (transportCloseOk : Bool) : Ctrl × CloseOutcome × Bool :=
  if c.serialOpen then
    if transportCloseOk then ({ c with serialOpen := false }, CloseOutcome.resolved, true)
    else (c, CloseOutcome.rejected, true)
  else (c, CloseOutcome.resolved, false)

/-- `#enableBinaryMode(interval, maxBufferSize)`: unpipe the binary parser if
`#binaryMode` is already set, else unpipe the readline parser; set
`#binaryMode`; create a fresh `InterByteTimeoutParser` and pipe it.  The
`interval` / `maxBufferSize` arguments only configure that external parser. -/
def enableBinaryMode (c : Ctrl) (interval maxBufferSize : Nat) : Ctrl :=
  let c1 := if c.binaryMode then { c with binPiped := false }
            else { c with linePiped := false }
  { c1 with binaryMode := true, binPiped := true }

/-- `#disableBinaryMode()`: if `#binaryMode` is set, unpipe the binary parser
and re-pipe the readline parser.  Note that the source never resets
`#binaryMode` to `false` here. -/
def disableBinaryMode (c : Ctrl) : Ctrl :=
  if c.binaryMode then { c with binPiped := false, linePiped := true } else c

/-- The `clearTimeout`-and-clear step at the top of `#processQueue`. -/
def clearCurrent (c : Ctrl) : Ctrl :=
  match c.current with
  | none => c
  | some ctx =>
    { c with
      current := none
      activeTimers :=
        match ctx.timeoutFn with
        | some tid => c.activeTimers.filter (fun p => p.1 != tid)
        | none => c.activeTimers }

/-- The `this.#serial.write(...)` at the end of `#processQueue`: a `Buffer`
payload is written raw, a text payload with a trailing `'\r\n'`. -/
def writeOut (cid : Nat) (d : SerialData) : Output :=
  match d with
  | SerialData.text s => Output.wrote cid (SerialData.text (s ++ "\r\n"))
  | SerialData.buffer b => Output.wrote cid (SerialData.buffer b)

/-- The dequeue-and-activate part of `#processQueue` (everything after the
initial clear of `#current`): pop the queue head, make it current; if the
port is not open reject it and return (the source does not advance
further); otherwise arm the timer (regex mode, `timeoutMs > 0`) or switch
to binary framing (binary mode), then write the payload. -/
def activateNext (c : Ctrl) : Ctrl × List Output :=
  match c.queue with
  | [] => (c, [])
  | next :: rest =>
    let c2 : Ctrl := { c with queue := rest, current := some next }
    if c2.serialOpen then
      match next.payload with
      | ReqPayload.regex r =>
        -- `next.regex.timeoutMs > 0` tested by zero / successor
        match r.timeoutMs with
        | 0 => (c2, [writeOut next.cid r.data])
        | Nat.succ _ =>
          ({ c2 with
              current := some { next with timeoutFn := some c2.nextTimerId }
              activeTimers := (c2.nextTimerId, next.cid) :: c2.activeTimers
              nextTimerId := c2.nextTimerId + 1 },
           [writeOut next.cid r.data])
      | ReqPayload.binary b =>
        (enableBinaryMode c2 b.interval b.maxBufferSize, [writeOut next.cid b.data])
    else
      (c2, [Output.settled next.cid false (SettleValue.err ErrKind.notOpen)])

/-- `#processQueue()`. -/
def processQueue (c : Ctrl) : Ctrl × List Output :=
  activateNext (clearCurrent c)

/-- The `for (const handler of this.#handlers)` loop: index of the first
handler whose pattern tests true, if any. -/
def findHandlerIdx : List Handler → String → Option Nat
  | [], _ => none
  | h :: t, m =>
    if h.pattern m then some 0 else (findHandlerIdx t m).map (fun i => i + 1)

/-- `request.errorRegex && request.errorRegex.test(data)`. -/
def errorMatches (r : RegexRequest) (m : String) : Bool :=
  match r.errorRegex with
  | some p => p m
  | none => false

/-- `request.bufferRegex && request.bufferRegex.test(data)`. -/
def bufferMatches (r : RegexRequest) (m : String) : Bool :=
  match r.bufferRegex with
  | some p => p m
  | none => false

/-- Mutation of `this.#current.response` (the current context object). -/
def withResponse (c : Ctrl) (ctx : Context) (resp : String) : Ctrl :=
  { c with current := some { ctx with response := resp } }

/-- Result of one inbound-data handler invocation: either a new state plus
outputs, or a `TypeError` escaping the handler (after the listed outputs). -/
inductive StepResult where
  | ok (c : Ctrl) (outs : List Output)
  | crash (outs : List Output)

/-- `#handleStringData(data)`.  Unsolicited handlers are consulted first; with
no current context a warning and an `unexpected-data` event are emitted.
With a binary-mode current context, `this.#current.regex` is `undefined`
and `request.errorRegex` throws a `TypeError`.  Otherwise: an error match
rejects with the buffer so far and advances the queue; else a buffer match
that is not a verbatim echo of the payload is appended to the response
buffer; then a success match resolves with the (possibly just extended)
buffer and advances the queue. -/
def handleStringData (c : Ctrl) (m : String) : StepResult :=
  match findHandlerIdx c.handlers m with
  | some i => StepResult.ok c [Output.handlerCalled i m]
  | none =>
    match c.current with
    | none =>
      StepResult.ok c
        [Output.warned "Unexpected inbound message, no active handler",
         Output.unexpectedData (SerialData.text m)]
    | some ctx =>
      match ctx.payload with
      | ReqPayload.binary _ => StepResult.crash []
      | ReqPayload.regex r =>
        if errorMatches r m then
          let p := processQueue c
          StepResult.ok p.1
            (Output.settled ctx.cid false (SettleValue.errStr ctx.response) :: p.2)
        else
          let resp :=
            if bufferMatches r m && !(r.data == SerialData.text m) then
              if ctx.response = "" then m else ctx.response ++ "\n" ++ m
            else ctx.response
          let c3 := withResponse c ctx resp
          if r.successRegex m then
            let p := processQueue c3
            StepResult.ok p.1
              (Output.settled ctx.cid true (SettleValue.str resp) :: p.2)
          else StepResult.ok c3 []

/-- `#handleBufferData(data)`.  With no current context the source emits the
warning and the `unexpected-data` event but, lacking a `return`, falls
through to `this.#current.resolveFn(data)` and throws a `TypeError` on the
`null` context.  Otherwise the current context is resolved with the chunk,
binary framing is disabled, and the queue advances. -/
def handleBufferData (c : Ctrl) (b : List Nat) : StepResult :=
  match c.current with
  | none =>
    StepResult.crash
      [Output.warned "Unexpected inbound message, no active handler",
       Output.unexpectedData (SerialData.buffer b)]
  | some ctx =>
    let c2 := disableBinaryMode c
    let p := processQueue c2
    StepResult.ok p.1 (Output.settled ctx.cid true (SettleValue.buf b) :: p.2)

/-- `/^.+$/`, the default `bufferRegex` installed by `regexRequest`: one or
more non-line-terminator characters spanning the whole string. -/
def defaultBufferPattern : Pattern := fun s =>
  !s.isEmpty && s.toList.all (fun ch => ch != '\n' && ch != '\r')

/-- Appending a freshly created context to `this.#queue` (`cid` is the next
submission number). -/
def enqueue (c : Ctrl) (p : ReqPayload) : Ctrl :=
  { c with
    queue := c.queue ++ [{ cid := c.nextCid, payload := p, timeoutFn := none, response := "" }]
    nextCid := c.nextCid + 1 }

/-- `regexRequest(request)`: default the buffer pattern, enqueue a fresh
context, and run `#processQueue` if no request is current. -/
def regexRequest (c : Ctrl) (r : RegexRequest) : Ctrl × List Output :=
  let r2 :=
    match r.bufferRegex with
    | none => { r with bufferRegex := some defaultBufferPattern }
    | some _ => r
  let c2 := enqueue c (ReqPayload.regex r2)
  -- `if (!this.#current)`: the push leaves `#current` unchanged
  match c.current with
  | none => processQueue c2
  | some _ => (c2, [])

/-- `binaryRequest(request)`. -/
def binaryRequest (c : Ctrl) (b : BinaryRequest) : Ctrl × List Output :=
  let c2 := enqueue c (ReqPayload.binary b)
  -- `if (!this.#current)`: the push leaves `#current` unchanged
  match c.current with
  | none => processQueue c2
  | some _ => (c2, [])

/-- The `setTimeout` callback armed in `#processQueue`: one-shot (the firing
consumes the timer id), logs a warning, rejects the captured context with
`Error('Timeout')`, and re-runs `#processQueue`. -/
def fireTimer (c : Ctrl) (tid cid : Nat) : Ctrl × List Output :=
  let c1 := { c with activeTimers := c.activeTimers.filter (fun p => p.1 != tid) }
  let p := processQueue c1
  (p.1, Output.warned "Request timeout" ::
        Output.settled cid false (SettleValue.err ErrKind.timeout) :: p.2)

/-- Look up the context id owned by timer `tid`, if that timer is armed. -/
def lookupTimer (l : List (Nat × Nat)) (tid : Nat) : Option Nat :=
  (l.find? (fun p => p.1 == tid)).map (fun p => p.2)

/-- The event-loop occurrences driving one controller instance. -/
inductive Event where
  | submitRegex (r : RegexRequest)   -- a caller invokes `regexRequest`
  | submitBinary (b : BinaryRequest) -- a caller invokes `binaryRequest`
  | lineData (m : String)    -- the readline parser emits a framed line
  | chunkData (b : List Nat) -- the binary parser emits a flushed chunk
  | timerFire (tid : Nat)    -- an armed `setTimeout` fires
  | openPort                 -- an `open()` call completes successfully
  | closePort                -- a `close()` call completes successfully

/-- One event dispatch.  `none` means the event cannot occur in this state
(data only flows while the port is open and the parser is piped; a timer
only fires while armed). -/
def step (c : Ctrl) : Event → Option StepResult
  | Event.submitRegex r =>
    let p := regexRequest c r
    some (StepResult.ok p.1 p.2)
  | Event.submitBinary b =>
    let p := binaryRequest c b
    some (StepResult.ok p.1 p.2)
  | Event.lineData m =>
    if c.serialOpen && c.linePiped then some (handleStringData c m) else none
  | Event.chunkData b =>
    if c.serialOpen && c.binPiped then some (handleBufferData c b) else none
  | Event.timerFire tid =>
    match lookupTimer c.activeTimers tid with
    | some cid =>
      let p := fireTimer c tid cid
      some (StepResult.ok p.1 p.2)
    | none => none
  | Event.openPort =>
    if c.serialOpen then none else some (StepResult.ok { c with serialOpen := true } [])
  | Event.closePort =>
    some (StepResult.ok (if c.serialOpen then { c with serialOpen := false } else c) [])

/-- A finished run: final state plus the cumulative outputs, or the outputs
up to an escaped `TypeError`. -/
inductive RunResult where
  | ok (c : Ctrl) (outs : List Output)
  | crashed (outs : List Output)

def RunResult.outs : RunResult → List Output
  | RunResult.ok _ o => o
  | RunResult.crashed o => o

/-- Execute a trace of events; events that cannot occur in the current state
are skipped. -/
def run (c : Ctrl) (acc : List Output) : List Event → RunResult
  | [] => RunResult.ok c acc
  | e :: es =>
    match step c e with
    | none => run c acc es
    | some (StepResult.ok c2 outs) => run c2 (acc ++ outs) es
    | some (StepResult.crash outs) => RunResult.crashed (acc ++ outs)

/-- Settlement events (cid, resolve?, value) extracted from a run. -/
def RunResult.settlements (r : RunResult) : List (Nat × Bool × SettleValue) :=
  r.outs.filterMap fun o =>
    match o with
    | Output.settled i b v => some (i, b, v)
    | _ => none

def RunResult.currentCid : RunResult → Option Nat
  | RunResult.ok c _ => c.current.map Context.cid
  | RunResult.crashed _ => none

def RunResult.queueCids : RunResult → List Nat
  | RunResult.ok c _ => c.queue.map Context.cid
  | RunResult.crashed _ => []

/-- Framing status `(binaryMode flag, readline parser piped, binary parser
piped)` of the final state. -/
def RunResult.framing : RunResult → Option (Bool × Bool × Bool)
  | RunResult.ok c _ => some (c.binaryMode, c.linePiped, c.binPiped)
  | RunResult.crashed _ => none

end SerialportSync

namespace SerialportSync

/-! ### Concrete fixtures for the counterexample evaluations -/

/-- A plain text request: payload `"AT"`, no timeout, success on `"OK"`. -/
def reqStall : RegexRequest :=
  { data := SerialData.text "AT", timeoutMs := 0, successRegex := fun s => s == "OK" }

/-- A text request whose success pattern matches `"OK"`. -/
def reqTwice : RegexRequest :=
  { data := SerialData.text "CMD", timeoutMs := 0, successRegex := fun s => s == "OK" }

/-- A stream-capture request. -/
def binReq1 : BinaryRequest :=
  { data := SerialData.buffer [1], interval := 20, maxBufferSize := 65536 }

/-- A state with the port open, the binary parser piped, and no current
context (in Node this arises when a `data` event of the binary parser is
already pending when the parser is unpiped). -/
def noCtxBinaryState : Ctrl :=
  { initCtrl [] with serialOpen := true, binPiped := true }

/-- **C1.** Two requests submitted while the transport is closed: the code
rejects the first with the connection-not-open error but then returns from
`#processQueue` without advancing, so the rejected context stays current
and the second request is never activated (no settlement for cid 1, queue
still holds it) — contradicting the claim that the orchestrator advances to
activate the next queued request and never stalls the queue. -/
theorem closed_transport_stalls_queue :
    (run (initCtrl []) [] [Event.submitRegex reqStall, Event.submitRegex reqStall]).settlements
        = [(0, false, SettleValue.err ErrKind.notOpen)] ∧
    (run (initCtrl []) [] [Event.submitRegex reqStall, Event.submitRegex reqStall]).currentCid
        = some 0 ∧
    (run (initCtrl []) [] [Event.submitRegex reqStall, Event.submitRegex reqStall]).queueCids
        = [1] := by
  refine ⟨?_, ?_, ?_⟩ <;> rfl

/-- **C2.** A context settled twice: submitted while the transport is closed,
the context is rejected with the connection-not-open error but stays
current; after the port opens, an inbound line matching the success pattern
invokes `resolveFn` on the same context — two settlement-callback
invocations (reject, then resolve) for cid 0, contradicting the
at-most-once claim. -/
theorem context_settled_twice :
    (run (initCtrl []) []
        [Event.submitRegex reqTwice, Event.openPort, Event.lineData "OK"]).settlements
      = [(0, false, SettleValue.err ErrKind.notOpen),
         (0, true, SettleValue.str "OK")] := by
  rfl

/-- **C3.** After a stream-capture request settles, `#disableBinaryMode`
re-pipes the line framer but never resets `#binaryMode`, so the flag
(`true`) disagrees with the attached framer (readline); activating a second
stream-capture request then unpipes the stale binary parser instead of the
readline parser, leaving BOTH framers piped — contradicting the
exactly-one-framer / flag-agreement claim. -/
theorem framing_flag_never_reset :
    (run (initCtrl []) []
        [Event.openPort, Event.submitBinary binReq1, Event.chunkData [171]]).framing
      = some (true, true, false) ∧
    (run (initCtrl []) []
        [Event.openPort, Event.submitBinary binReq1, Event.chunkData [171],
         Event.submitBinary binReq1]).framing
      = some (true, true, true) := by
  exact ⟨rfl, rfl⟩

/-- **C4.** A framed binary chunk arriving with no current context: the code
logs the warning and emits the `unexpected-data` event, but — missing a
`return` — falls through to `this.#current.resolveFn(data)` and throws a
`TypeError` on the `null` context instead of stopping there. -/
theorem buffer_data_without_context_crashes :
    handleBufferData noCtxBinaryState [7] =
      StepResult.crash
        [Output.warned "Unexpected inbound message, no active handler",
         Output.unexpectedData (SerialData.buffer [7])] := by
  rfl

end SerialportSync

namespace SerialportSync

/-! ### Classification of a single inbound line (C5, C7, C8) -/

theorem withResponse_self (c : Ctrl) (ctx : Context) (hcur : c.current = some ctx) :
    withResponse c ctx ctx.response = c := by
  unfold withResponse
  rw [← hcur]

/-- **C5.** If the current request's error pattern matches the inbound
message, the context is rejected with the buffer accumulated so far and the
queue advances; the result is literally `reject (old buffer)` followed by
`#processQueue` of the untouched state, so neither the buffer pattern nor
the success pattern is consulted for this message. -/
theorem error_preempts_buffer_and_success (c : Ctrl) (ctx : Context) (r : RegexRequest)
    (pe : Pattern) (m : String)
    (hhand : findHandlerIdx c.handlers m = none)
    (hcur : c.current = some ctx) (hreq : ctx.payload = ReqPayload.regex r)
    (herr : r.errorRegex = some pe) (hm : pe m = true) :
    handleStringData c m =
      StepResult.ok (processQueue c).1
        (Output.settled ctx.cid false (SettleValue.errStr ctx.response) ::
          (processQueue c).2) := by
  have hm2 : errorMatches r m = true := by unfold errorMatches; rw [herr]; exact hm
  unfold handleStringData
  simp only [hhand, hcur, hreq, hm2, if_true]

/-- **C7.** An inbound message that is character-for-character the outbound
text payload is never appended to the response buffer, whatever the buffer
pattern says: the context's buffer is left untouched, and if the success
pattern also matches, the context resolves with the old buffer. -/
theorem echo_never_buffered (c : Ctrl) (ctx : Context) (r : RegexRequest) (m : String)
    (hhand : findHandlerIdx c.handlers m = none)
    (hcur : c.current = some ctx) (hreq : ctx.payload = ReqPayload.regex r)
    (hecho : r.data = SerialData.text m)
    (herr : errorMatches r m = false) :
    handleStringData c m =
      if r.successRegex m then
        StepResult.ok (processQueue c).1
          (Output.settled ctx.cid true (SettleValue.str ctx.response) ::
            (processQueue c).2)
      else StepResult.ok c [] := by
  have he2 : (r.data == SerialData.text m) = true := beq_iff_eq.mpr hecho
  unfold handleStringData
  simp only [hhand, hcur, hreq, herr, he2, Bool.not_true, Bool.and_false, if_false,
    Bool.false_eq_true, withResponse_self c ctx hcur]

/-- **C8.** A non-echo message matching both the buffer pattern and the
success pattern (and not the error pattern) is first appended to the
response buffer — newline-joined if non-empty, verbatim otherwise — and the
context then resolves with that extended buffer, terminating message
included. -/
theorem buffered_message_included_on_success (c : Ctrl) (ctx : Context) (r : RegexRequest)
    (pb : Pattern) (m : String)
    (hhand : findHandlerIdx c.handlers m = none)
    (hcur : c.current = some ctx) (hreq : ctx.payload = ReqPayload.regex r)
    (herr : errorMatches r m = false)
    (hbuf : r.bufferRegex = some pb) (hbm : pb m = true)
    (hecho : r.data ≠ SerialData.text m)
    (hsucc : r.successRegex m = true) :
    handleStringData c m =
      StepResult.ok
        (processQueue (withResponse c ctx
            (if ctx.response = "" then m else ctx.response ++ "\n" ++ m))).1
        (Output.settled ctx.cid true
            (SettleValue.str (if ctx.response = "" then m else ctx.response ++ "\n" ++ m)) ::
          (processQueue (withResponse c ctx
            (if ctx.response = "" then m else ctx.response ++ "\n" ++ m))).2) := by
  have hb2 : bufferMatches r m = true := by unfold bufferMatches; rw [hbuf]; exact hbm
  have he2 : (r.data == SerialData.text m) = false := beq_eq_false_iff_ne.mpr hecho
  unfold handleStringData
  simp only [hhand, hcur, hreq, herr, hb2, he2, hsucc, Bool.not_false, Bool.and_true,
    if_true, Bool.false_eq_true, if_false]

/-! ### Witness fixtures -/

def patOK : Pattern := fun s => s == "OK"
def patERR : Pattern := fun s => s == "ERR"
def patAny : Pattern := fun _ => true

def reqFull : RegexRequest :=
  { data := SerialData.text "CMD", timeoutMs := 0, successRegex := patOK,
    bufferRegex := some patAny, errorRegex := some patERR }

def ctxFull : Context :=
  { cid := 0, payload := ReqPayload.regex reqFull, timeoutFn := none, response := "partial" }

def ctrlFull : Ctrl :=
  { serialOpen := true, current := some ctxFull, queue := [], handlers := [],
    binaryMode := false, linePiped := true, binPiped := false,
    nextTimerId := 0, activeTimers := [], nextCid := 1 }

def reqEcho : RegexRequest :=
  { data := SerialData.text "ECHO", timeoutMs := 0, successRegex := patAny,
    bufferRegex := some patAny, errorRegex := none }

def ctxEcho : Context :=
  { cid := 0, payload := ReqPayload.regex reqEcho, timeoutFn := none, response := "" }

def ctrlEcho : Ctrl :=
  { ctrlFull with current := some ctxEcho }

theorem error_preempts_buffer_and_success_witness :
    patERR "ERR" = true ∧
    handleStringData ctrlFull "ERR" =
      StepResult.ok (processQueue ctrlFull).1
        (Output.settled 0 false (SettleValue.errStr "partial") :: (processQueue ctrlFull).2) :=
  ⟨by decide,
   error_preempts_buffer_and_success ctrlFull ctxFull reqFull patERR "ERR"
     rfl rfl rfl rfl (by decide)⟩

theorem echo_never_buffered_witness :
    patAny "ECHO" = true ∧
    handleStringData ctrlEcho "ECHO" =
      if reqEcho.successRegex "ECHO" then
        StepResult.ok (processQueue ctrlEcho).1
          (Output.settled 0 true (SettleValue.str "") :: (processQueue ctrlEcho).2)
      else StepResult.ok ctrlEcho [] :=
  ⟨by decide,
   echo_never_buffered ctrlEcho ctxEcho reqEcho "ECHO" rfl rfl rfl rfl (by decide)⟩

theorem buffered_message_included_on_success_witness :
    patAny "OK" = true ∧ patOK "OK" = true ∧
    handleStringData ctrlFull "OK" =
      StepResult.ok
        (processQueue (withResponse ctrlFull ctxFull ("partial" ++ "\n" ++ "OK"))).1
        (Output.settled 0 true (SettleValue.str ("partial" ++ "\n" ++ "OK")) ::
          (processQueue (withResponse ctrlFull ctxFull ("partial" ++ "\n" ++ "OK"))).2) :=
  ⟨by decide, by decide,
   buffered_message_included_on_success ctrlFull ctxFull reqFull patAny "OK"
     rfl rfl rfl (by decide) rfl (by decide) (by decide) (by decide)⟩

/-! ### close() (C10) -/

/-- **C10.** `close()` invoked while the serial connection is not open
resolves successfully without invoking the transport close operation and
without changing the state; and in every state, whenever `close()`
resolves, `isOpen()` is `false` afterwards. -/
theorem close_while_not_open_is_noop (c : Ctrl) (transportCloseOk : Bool) :
    (isOpen c = false → close c transportCloseOk = (c, CloseOutcome.resolved, false)) ∧
    ((close c transportCloseOk).2.1 = CloseOutcome.resolved →
      isOpen (close c transportCloseOk).1 = false) := by
  unfold close isOpen
  cases hso : c.serialOpen
  · simp [hso]
  · cases transportCloseOk <;> simp [hso]

theorem close_while_not_open_is_noop_witness :
    isOpen (initCtrl []) = false ∧
    close (initCtrl []) true = (initCtrl [], CloseOutcome.resolved, false) :=
  ⟨rfl, (close_while_not_open_is_noop (initCtrl []) true).1 rfl⟩

end SerialportSync

namespace SerialportSync

/-! ### Output classification and trace-order predicates (for C6, C9) -/

/-- The context id whose `resolveFn` / `rejectFn` this output invokes. -/
def Output.settleCid : Output → Option Nat
  | Output.settled i _ _ => some i
  | _ => none

/-- The context id this output settles or writes for. -/
def Output.touchCid : Output → Option Nat
  | Output.settled i _ _ => some i
  | Output.wrote i _ => some i
  | _ => none

/-- The context id this output rejects with the timeout error, if any. -/
def Output.timeoutRejectCid : Output → Option Nat
  | Output.settled i false (SettleValue.err ErrKind.timeout) => some i
  | _ => none

/-- Some settlement of context `j` occurs in `outs`. -/
def SettledIn (outs : List Output) (j : Nat) : Prop :=
  ∃ o ∈ outs, o.settleCid = some j

/-- Walking the output list left to right with `s` the set of context ids
already settled before the list started: every settlement or write of a
context `i` is preceded by a settlement of every earlier-submitted context
`j < i`. -/
def OrderedFrom (s : Nat → Prop) : List Output → Prop
  | [] => True
  | o :: rest =>
    (∀ i, o.touchCid = some i → ∀ j < i, s j) ∧
    OrderedFrom (fun j => s j ∨ o.settleCid = some j) rest

/-- Walking the output list left to right: every timeout rejection of a
context is that context's first settlement. -/
def TimeoutFirstFrom (s : Nat → Prop) : List Output → Prop
  | [] => True
  | o :: rest =>
    (∀ i, o.timeoutRejectCid = some i → ¬ s i) ∧
    TimeoutFirstFrom (fun j => s j ∨ o.settleCid = some j) rest

theorem settledIn_nil (j : Nat) : ¬ SettledIn [] j := by
  rintro ⟨o, ho, _⟩
  exact absurd ho (List.not_mem_nil o)

theorem settledIn_cons {o : Output} {l : List Output} {j : Nat} :
    SettledIn (o :: l) j ↔ o.settleCid = some j ∨ SettledIn l j := by
  constructor
  · rintro ⟨x, hx, hs⟩
    rcases List.mem_cons.mp hx with rfl | hx
    · exact Or.inl hs
    · exact Or.inr ⟨x, hx, hs⟩
  · rintro (h | ⟨x, hx, hs⟩)
    · exact ⟨o, List.mem_cons_self o l, h⟩
    · exact ⟨x, List.mem_cons_of_mem o hx, hs⟩

theorem settledIn_append {l₁ l₂ : List Output} {j : Nat} :
    SettledIn (l₁ ++ l₂) j ↔ SettledIn l₁ j ∨ SettledIn l₂ j := by
  constructor
  · rintro ⟨x, hx, hs⟩
    rcases List.mem_append.mp hx with h | h
    · exact Or.inl ⟨x, h, hs⟩
    · exact Or.inr ⟨x, h, hs⟩
  · rintro (⟨x, hx, hs⟩ | ⟨x, hx, hs⟩)
    · exact ⟨x, List.mem_append_left _ hx, hs⟩
    · exact ⟨x, List.mem_append_right _ hx, hs⟩

theorem settledIn_singleton {o : Output} {j : Nat} :
    SettledIn [o] j ↔ o.settleCid = some j := by
  rw [settledIn_cons]
  exact ⟨fun h => h.elim id (fun h2 => absurd h2 (settledIn_nil j)), Or.inl⟩

theorem orderedFrom_mono {s t : Nat → Prop} (hst : ∀ j, s j → t j) :
    ∀ l, OrderedFrom s l → OrderedFrom t l := by
  intro l
  induction l generalizing s t with
  | nil => intro _; trivial
  | cons o rest ih =>
    intro h
    exact ⟨fun i hi j hj => hst j (h.1 i hi j hj),
           ih (fun j hj => hj.imp (hst j) id) h.2⟩

theorem timeoutFirstFrom_congr {s t : Nat → Prop} (hst : ∀ j, s j ↔ t j) :
    ∀ l, TimeoutFirstFrom s l → TimeoutFirstFrom t l := by
  intro l
  induction l generalizing s t with
  | nil => intro _; trivial
  | cons o rest ih =>
    intro h
    refine ⟨fun i hi hti => h.1 i hi ((hst i).mpr hti), ?_⟩
    exact ih (fun j => or_congr_left (hst j)) h.2

theorem orderedFrom_append {s : Nat → Prop} :
    ∀ l₁ l₂ : List Output, OrderedFrom s l₁ →
      OrderedFrom (fun j => s j ∨ SettledIn l₁ j) l₂ →
      OrderedFrom s (l₁ ++ l₂) := by
  intro l₁
  induction l₁ generalizing s with
  | nil =>
    intro l₂ _ h₂
    exact orderedFrom_mono
      (fun j hj => hj.elim id (fun h => absurd h (settledIn_nil j))) l₂ h₂
  | cons o rest ih =>
    intro l₂ h₁ h₂
    refine ⟨h₁.1, ?_⟩
    refine ih l₂ h₁.2 (orderedFrom_mono ?_ l₂ h₂)
    intro j hj
    rcases hj with hs | hmem
    · exact Or.inl (Or.inl hs)
    · rcases settledIn_cons.mp hmem with h | h
      · exact Or.inl (Or.inr h)
      · exact Or.inr h

theorem timeoutFirstFrom_append {s : Nat → Prop} :
    ∀ l₁ l₂ : List Output, TimeoutFirstFrom s l₁ →
      TimeoutFirstFrom (fun j => s j ∨ SettledIn l₁ j) l₂ →
      TimeoutFirstFrom s (l₁ ++ l₂) := by
  intro l₁
  induction l₁ generalizing s with
  | nil =>
    intro l₂ _ h₂
    refine timeoutFirstFrom_congr (fun j => ?_) l₂ h₂
    exact ⟨fun h => h.elim id (fun h2 => absurd h2 (settledIn_nil j)), Or.inl⟩
  | cons o rest ih =>
    intro l₂ h₁ h₂
    refine ⟨h₁.1, ?_⟩
    refine ih l₂ h₁.2 (timeoutFirstFrom_congr (fun j => ?_) l₂ h₂)
    constructor
    · rintro (hs | hmem)
      · exact Or.inl (Or.inl hs)
      · rcases settledIn_cons.mp hmem with h | h
        · exact Or.inl (Or.inr h)
        · exact Or.inr h
    · rintro ((hs | ho) | hmem)
      · exact Or.inl hs
      · exact Or.inr (settledIn_cons.mpr (Or.inl ho))
      · exact Or.inr (settledIn_cons.mpr (Or.inr hmem))

theorem settleCid_eq_none_of_touch (o : Output) (h : o.touchCid = none) :
    o.settleCid = none := by
  cases o <;> first | rfl | exact absurd h (by simp [Output.touchCid])

theorem timeoutRejectCid_eq_none_of_settle (o : Output) (h : o.settleCid = none) :
    o.timeoutRejectCid = none := by
  cases o with
  | settled i b v => exact absurd h (by simp [Output.settleCid])
  | _ => rfl

theorem orderedFrom_of_no_touch {s : Nat → Prop} :
    ∀ l : List Output, (∀ o ∈ l, Output.touchCid o = none) → OrderedFrom s l := by
  intro l
  induction l generalizing s with
  | nil => intro _; trivial
  | cons o rest ih =>
    intro h
    refine ⟨fun i hi => ?_, ih (fun x hx => h x (List.mem_cons_of_mem o hx))⟩
    rw [h o (List.mem_cons_self o rest)] at hi
    cases hi

theorem timeoutFirstFrom_of_no_timeout {s : Nat → Prop} :
    ∀ l : List Output, (∀ o ∈ l, Output.timeoutRejectCid o = none) →
      TimeoutFirstFrom s l := by
  intro l
  induction l generalizing s with
  | nil => intro _; trivial
  | cons o rest ih =>
    intro h
    refine ⟨fun i hi => ?_, ih (fun x hx => h x (List.mem_cons_of_mem o hx))⟩
    rw [h o (List.mem_cons_self o rest)] at hi
    cases hi

theorem not_settledIn_of_no_settle {l : List Output} {j : Nat}
    (h : ∀ o ∈ l, Output.settleCid o = none) : ¬ SettledIn l j := by
  rintro ⟨o, ho, hs⟩
  rw [h o ho] at hs
  cases hs

end SerialportSync

namespace SerialportSync

/-! ### The reachable-state invariant -/

/-- The cids of the current context (first, if any) followed by the queue:
exactly the submitted-but-not-yet-cleared contexts, in activation order. -/
def cids (c : Ctrl) : List Nat := (c.current.toList ++ c.queue).map Context.cid

/-- Invariant tying a controller state to the outputs produced so far:
pending cids are strictly increasing and below the submission counter;
every submitted cid no longer pending has been settled; at most one timer
is armed, owned by the (unsettled) current context; queued contexts are
unsettled; and the outputs are FIFO-ordered with first-settling timeouts. -/
structure Inv (c : Ctrl) (outs : List Output) : Prop where
  sorted : (cids c).Pairwise (· < ·)
  ub : ∀ i ∈ cids c, i < c.nextCid
  settledBelow : ∀ j, j < c.nextCid → j ∉ cids c → SettledIn outs j
  settledUB : ∀ j, SettledIn outs j → j < c.nextCid
  timers : c.activeTimers = [] ∨
    ∃ tid ctx, c.activeTimers = [(tid, ctx.cid)] ∧ c.current = some ctx ∧
      ctx.timeoutFn = some tid ∧ ¬ SettledIn outs ctx.cid
  queueFresh : ∀ ctx ∈ c.queue, ¬ SettledIn outs ctx.cid
  ordered : OrderedFrom (fun _ => False) outs
  tmofirst : TimeoutFirstFrom (fun _ => False) outs

/-- Weakening of `Inv` holding at the entry of `#processQueue`: the current
context (if any) has just been settled, so the timer ownership loses its
not-yet-settled clause and gains `currentSettled`. -/
structure PreInv (c : Ctrl) (outs : List Output) : Prop where
  sorted : (cids c).Pairwise (· < ·)
  ub : ∀ i ∈ cids c, i < c.nextCid
  settledBelow : ∀ j, j < c.nextCid → j ∉ cids c → SettledIn outs j
  settledUB : ∀ j, SettledIn outs j → j < c.nextCid
  timersOk : c.activeTimers = [] ∨
    ∃ tid ctx, c.activeTimers = [(tid, ctx.cid)] ∧ c.current = some ctx ∧
      ctx.timeoutFn = some tid
  queueFresh : ∀ ctx ∈ c.queue, ¬ SettledIn outs ctx.cid
  ordered : OrderedFrom (fun _ => False) outs
  tmofirst : TimeoutFirstFrom (fun _ => False) outs
  currentSettled : ∀ ctx, c.current = some ctx → SettledIn outs ctx.cid

theorem touchCid_writeOut (cid : Nat) (d : SerialData) :
    (writeOut cid d).touchCid = some cid := by
  cases d <;> rfl

theorem settleCid_writeOut (cid : Nat) (d : SerialData) :
    (writeOut cid d).settleCid = none := by
  cases d <;> rfl

theorem timeoutRejectCid_writeOut (cid : Nat) (d : SerialData) :
    (writeOut cid d).timeoutRejectCid = none := by
  cases d <;> rfl

/-- After `clearCurrent`, no context is current, no timer is armed, and the
rest of the state is unchanged. -/
theorem clearCurrent_spec (c : Ctrl) (outs : List Output) (h : PreInv c outs) :
    (clearCurrent c).current = none ∧ (clearCurrent c).activeTimers = [] ∧
    (clearCurrent c).queue = c.queue ∧ (clearCurrent c).serialOpen = c.serialOpen ∧
    (clearCurrent c).nextCid = c.nextCid ∧ (clearCurrent c).nextTimerId = c.nextTimerId := by
  obtain ⟨so, cur, q, hnd, bm, lp, bp, nti, act, nc⟩ := c
  rcases cur with _ | ctx
  · rcases h.timersOk with hT | ⟨tid, ctx, hT, hcur, hfn⟩
    · obtain rfl : act = [] := hT
      exact ⟨rfl, rfl, rfl, rfl, rfl, rfl⟩
    · cases hcur
  · obtain ⟨ncid, pay, tf, resp⟩ := ctx
    rcases tf with _ | tid
    · rcases h.timersOk with hT | ⟨tid2, ctx2, hT2, hcur, hfn2⟩
      · obtain rfl : act = [] := hT
        exact ⟨rfl, rfl, rfl, rfl, rfl, rfl⟩
      · have h2 : some (Context.mk ncid pay none resp) = some ctx2 := hcur
        injection h2 with h3
        subst h3
        exact Option.noConfusion hfn2
    · rcases h.timersOk with hT | ⟨tid2, ctx2, hT2, hcur, hfn2⟩
      · obtain rfl : act = [] := hT
        exact ⟨rfl, rfl, rfl, rfl, rfl, rfl⟩
      · have h2 : some (Context.mk ncid pay (some tid) resp) = some ctx2 := hcur
        injection h2 with h3
        subst h3
        have h4 : some tid = some tid2 := hfn2
        injection h4 with h5
        subst h5
        obtain rfl : act = [(tid, ncid)] := hT2
        refine ⟨rfl, ?_, rfl, rfl, rfl, rfl⟩
        show List.filter (fun p => p.1 != tid) [(tid, ncid)] = []
        simp

end SerialportSync

namespace SerialportSync

theorem cids_def (c : Ctrl) :
    cids c = c.current.toList.map Context.cid ++ c.queue.map Context.cid := by
  unfold cids
  exact List.map_append _ _ _

/-- `PreInv` survives `clearCurrent`. -/
theorem clearCurrent_preInv {c : Ctrl} {outs : List Output} (h : PreInv c outs) :
    PreInv (clearCurrent c) outs := by
  obtain ⟨hcur, hT, hq, hso, hnc, hnt⟩ := clearCurrent_spec c outs h
  have hcids : cids (clearCurrent c) = c.queue.map Context.cid := by
    rw [cids_def, hcur, hq]
    rfl
  have hsubl : List.Sublist (cids (clearCurrent c)) (cids c) := by
    rw [hcids, cids_def]
    exact List.sublist_append_right _ _
  refine ⟨?_, ?_, ?_, ?_, Or.inl hT, ?_, h.ordered, h.tmofirst, ?_⟩
  · exact h.sorted.sublist hsubl
  · intro i hi
    rw [hnc]
    exact h.ub i (hsubl.subset hi)
  · intro j hj hnin
    rw [hnc] at hj
    by_cases hmem : j ∈ cids c
    · rw [cids_def] at hmem
      rcases List.mem_append.mp hmem with hl | hr
      · rcases hc2 : c.current with _ | ctx
        · rw [hc2] at hl
          simp at hl
        · rw [hc2] at hl
          simp at hl
          subst hl
          exact h.currentSettled ctx hc2
      · rw [hcids] at hnin
        exact absurd hr hnin
    · exact h.settledBelow j hj hmem
  · intro j hj
    rw [hnc]
    exact h.settledUB j hj
  · intro ctx hctx
    rw [hq] at hctx
    exact h.queueFresh ctx hctx
  · intro ctx hctx
    rw [hcur] at hctx
    cases hctx

end SerialportSync

namespace SerialportSync

theorem settledIn_append_single {acc : List Output} {o : Output} {j : Nat}
    (h : SettledIn (acc ++ [o]) j) : SettledIn acc j ∨ o.settleCid = some j := by
  rcases settledIn_append.mp h with ha | ho
  · exact Or.inl ha
  · exact Or.inr (settledIn_singleton.mp ho)

theorem settledIn_append_writeOut {acc : List Output} {cid j : Nat} {d : SerialData}
    (h : SettledIn (acc ++ [writeOut cid d]) j) : SettledIn acc j := by
  rcases settledIn_append_single h with ha | ho
  · exact ha
  · rw [settleCid_writeOut] at ho
    cases ho

theorem orderedFrom_single {acc : List Output} {o : Output} {i : Nat}
    (htc : o.touchCid = some i) (key : ∀ j, j < i → SettledIn acc j) :
    OrderedFrom (fun j => False ∨ SettledIn acc j) [o] := by
  refine ⟨fun i2 hi2 j hj => ?_, trivial⟩
  rw [htc] at hi2
  injection hi2 with h3
  subst h3
  exact Or.inr (key j hj)

theorem timeoutFirstFrom_single {s : Nat → Prop} {o : Output}
    (h : o.timeoutRejectCid = none) : TimeoutFirstFrom s [o] := by
  refine ⟨fun i hi => ?_, trivial⟩
  rw [h] at hi
  cases hi

/-- `Inv` only depends on the current context, queue, timers and submission
counter, so any state transformation preserving those preserves it. -/
theorem inv_congr {c c2 : Ctrl} {outs : List Output}
    (h : Inv c outs) (hcur : c2.current = c.current) (hq : c2.queue = c.queue)
    (hT : c2.activeTimers = c.activeTimers) (hnc : c2.nextCid = c.nextCid) :
    Inv c2 outs := by
  have hcids : cids c2 = cids c := by
    rw [cids_def, cids_def, hcur, hq]
  refine ⟨?_, ?_, ?_, ?_, ?_, ?_, h.ordered, h.tmofirst⟩
  · rw [hcids]
    exact h.sorted
  · intro i hi
    rw [hnc]
    exact h.ub i (hcids ▸ hi)
  · intro j hj hn
    rw [hnc] at hj
    rw [hcids] at hn
    exact h.settledBelow j hj hn
  · intro j hj
    rw [hnc]
    exact h.settledUB j hj
  · rcases h.timers with hT2 | ⟨tid, ctx, hT2, hc2, hfn, hns⟩
    · exact Or.inl (by rw [hT, hT2])
    · exact Or.inr ⟨tid, ctx, by rw [hT, hT2], by rw [hcur, hc2], hfn, hns⟩
  · intro ctx hctx
    rw [hq] at hctx
    exact h.queueFresh ctx hctx

theorem enableBinaryMode_fields (c : Ctrl) (i m : Nat) :
    (enableBinaryMode c i m).current = c.current ∧
    (enableBinaryMode c i m).queue = c.queue ∧
    (enableBinaryMode c i m).activeTimers = c.activeTimers ∧
    (enableBinaryMode c i m).nextCid = c.nextCid := by
  unfold enableBinaryMode
  cases hb : c.binaryMode <;> simp [hb]

theorem disableBinaryMode_fields (c : Ctrl) :
    (disableBinaryMode c).current = c.current ∧
    (disableBinaryMode c).queue = c.queue ∧
    (disableBinaryMode c).activeTimers = c.activeTimers ∧
    (disableBinaryMode c).nextCid = c.nextCid := by
  unfold disableBinaryMode
  cases hb : c.binaryMode <;> simp [hb]

end SerialportSync

namespace SerialportSync

/-- The dequeue-and-activate part of `#processQueue` re-establishes the full
invariant from the post-`clearCurrent` situation. -/
theorem activate_inv {c : Ctrl} {acc : List Output}
    (h : PreInv c acc) (hcur : c.current = none) (hT : c.activeTimers = []) :
    Inv (activateNext c).1 (acc ++ (activateNext c).2) := by
  obtain ⟨so, cur, q, hnd, bm, lp, bp, nti, act, nc⟩ := c
  have h1 : cur = none := hcur
  subst h1
  have h2 : act = ([] : List (Nat × Nat)) := hT
  subst h2
  rcases q with _ | ⟨next, rest⟩
  · show Inv ⟨so, none, [], hnd, bm, lp, bp, nti, [], nc⟩ (acc ++ ([] : List Output))
    rw [List.append_nil]
    exact ⟨h.sorted, h.ub, h.settledBelow, h.settledUB, Or.inl rfl, h.queueFresh,
      h.ordered, h.tmofirst⟩
  · obtain ⟨ncid, pay, ntf, nresp⟩ := next
    have hsor : (ncid :: List.map Context.cid rest).Pairwise (· < ·) := h.sorted
    have hub : ∀ i ∈ ncid :: List.map Context.cid rest, i < nc := h.ub
    have hsb : ∀ j, j < nc → j ∉ ncid :: List.map Context.cid rest → SettledIn acc j :=
      h.settledBelow
    have hsub2 : ∀ j, SettledIn acc j → j < nc := h.settledUB
    have hqf : ∀ ctx ∈ Context.mk ncid pay ntf nresp :: rest, ¬ SettledIn acc ctx.cid :=
      h.queueFresh
    have hord := h.ordered
    have htmo := h.tmofirst
    have hlt : ∀ i ∈ List.map Context.cid rest, ncid < i := (List.pairwise_cons.mp hsor).1
    have hncid : ncid < nc := hub ncid (List.mem_cons_self _ _)
    have hqfh : ¬ SettledIn acc ncid :=
      hqf (Context.mk ncid pay ntf nresp) (List.mem_cons_self _ _)
    have key : ∀ j, j < ncid → SettledIn acc j := by
      intro j hj
      refine hsb j (lt_trans hj hncid) ?_
      intro hmem
      rcases List.mem_cons.mp hmem with h3 | hmem2
      · subst h3
        exact lt_irrefl _ hj
      · exact absurd hj (not_lt.mpr (le_of_lt (hlt j hmem2)))
    rcases so with _ | _
    · -- transport not open: reject the freshly activated context and stop
      show Inv ⟨false, some (Context.mk ncid pay ntf nresp), rest, hnd, bm, lp, bp, nti, [], nc⟩
          (acc ++ [Output.settled ncid false (SettleValue.err ErrKind.notOpen)])
      refine ⟨hsor, hub, ?_, ?_, Or.inl rfl, ?_, ?_, ?_⟩
      · intro j hj hn
        exact settledIn_append.mpr (Or.inl (hsb j hj hn))
      · intro j hj
        rcases settledIn_append_single hj with ha | ho
        · exact hsub2 j ha
        · injection ho with h3
          subst h3
          exact hncid
      · intro ctx hctx hS
        rcases settledIn_append_single hS with ha | ho
        · exact hqf ctx (List.mem_cons_of_mem _ hctx) ha
        · injection ho with h3
          have hc2 : ncid < ctx.cid := hlt ctx.cid (List.mem_map_of_mem Context.cid hctx)
          rw [h3] at hc2
          exact lt_irrefl _ hc2
      · exact orderedFrom_append acc _ hord (orderedFrom_single rfl key)
      · exact timeoutFirstFrom_append acc _ htmo (timeoutFirstFrom_single rfl)
    · rcases pay with r | b
      · obtain ⟨rdesc, rdata, rtms, rsx, rbx, rex⟩ := r
        rcases rtms with _ | rt
        · -- timeoutMs = 0: no timer armed, payload written
          show Inv ⟨true, some (Context.mk ncid
                (ReqPayload.regex (RegexRequest.mk rdesc rdata 0 rsx rbx rex)) ntf nresp),
                rest, hnd, bm, lp, bp, nti, [], nc⟩
              (acc ++ [writeOut ncid rdata])
          refine ⟨hsor, hub, ?_, ?_, Or.inl rfl, ?_, ?_, ?_⟩
          · intro j hj hn
            exact settledIn_append.mpr (Or.inl (hsb j hj hn))
          · intro j hj
            exact hsub2 j (settledIn_append_writeOut hj)
          · intro ctx hctx hS
            exact hqf ctx (List.mem_cons_of_mem _ hctx) (settledIn_append_writeOut hS)
          · exact orderedFrom_append acc _ hord
              (orderedFrom_single (touchCid_writeOut _ _) key)
          · exact timeoutFirstFrom_append acc _ htmo
              (timeoutFirstFrom_single (timeoutRejectCid_writeOut _ _))
        · -- timeoutMs > 0: timer armed for the new current context
          show Inv ⟨true, some (Context.mk ncid
                (ReqPayload.regex (RegexRequest.mk rdesc rdata (rt + 1) rsx rbx rex))
                (some nti) nresp),
                rest, hnd, bm, lp, bp, nti + 1, [(nti, ncid)], nc⟩
              (acc ++ [writeOut ncid rdata])
          refine ⟨hsor, hub, ?_, ?_, ?_, ?_, ?_, ?_⟩
          · intro j hj hn
            exact settledIn_append.mpr (Or.inl (hsb j hj hn))
          · intro j hj
            exact hsub2 j (settledIn_append_writeOut hj)
          · exact Or.inr ⟨nti, Context.mk ncid
              (ReqPayload.regex (RegexRequest.mk rdesc rdata (rt + 1) rsx rbx rex))
              (some nti) nresp,
              rfl, rfl, rfl, fun hS => hqfh (settledIn_append_writeOut hS)⟩
          · intro ctx hctx hS
            exact hqf ctx (List.mem_cons_of_mem _ hctx) (settledIn_append_writeOut hS)
          · exact orderedFrom_append acc _ hord
              (orderedFrom_single (touchCid_writeOut _ _) key)
          · exact timeoutFirstFrom_append acc _ htmo
              (timeoutFirstFrom_single (timeoutRejectCid_writeOut _ _))
      · -- stream-capture request: switch to binary framing, then write
        show Inv (enableBinaryMode
              ⟨true, some (Context.mk ncid (ReqPayload.binary b) ntf nresp),
               rest, hnd, bm, lp, bp, nti, [], nc⟩ b.interval b.maxBufferSize)
            (acc ++ [writeOut ncid b.data])
        have hpre : Inv ⟨true, some (Context.mk ncid (ReqPayload.binary b) ntf nresp),
            rest, hnd, bm, lp, bp, nti, [], nc⟩ (acc ++ [writeOut ncid b.data]) := by
          refine ⟨hsor, hub, ?_, ?_, Or.inl rfl, ?_, ?_, ?_⟩
          · intro j hj hn
            exact settledIn_append.mpr (Or.inl (hsb j hj hn))
          · intro j hj
            exact hsub2 j (settledIn_append_writeOut hj)
          · intro ctx hctx hS
            exact hqf ctx (List.mem_cons_of_mem _ hctx) (settledIn_append_writeOut hS)
          · exact orderedFrom_append acc _ hord
              (orderedFrom_single (touchCid_writeOut _ _) key)
          · exact timeoutFirstFrom_append acc _ htmo
              (timeoutFirstFrom_single (timeoutRejectCid_writeOut _ _))
        obtain ⟨he1, he2, he3, he4⟩ := enableBinaryMode_fields
          ⟨true, some (Context.mk ncid (ReqPayload.binary b) ntf nresp),
           rest, hnd, bm, lp, bp, nti, [], nc⟩ b.interval b.maxBufferSize
        exact inv_congr hpre he1 he2 he3 he4

/-- `#processQueue` re-establishes the invariant whenever its entry condition
(`PreInv`) holds. -/
theorem pq_inv {c : Ctrl} {acc : List Output} (h : PreInv c acc) :
    Inv (processQueue c).1 (acc ++ (processQueue c).2) := by
  obtain ⟨hcur, hT, _, _, _, _⟩ := clearCurrent_spec c acc h
  exact activate_inv (clearCurrent_preInv h) hcur hT

end SerialportSync

namespace SerialportSync

/-- Settling the current context (the settle output appended) turns `Inv`
into the `#processQueue` entry condition `PreInv`. -/
theorem preInv_of_settle {c : Ctrl} {acc : List Output} {ctx : Context}
    (h : Inv c acc) (hcur : c.current = some ctx) (b : Bool) (v : SettleValue)
    (htmo : ∀ i, (Output.settled ctx.cid b v).timeoutRejectCid = some i →
      ¬ SettledIn acc i) :
    PreInv c (acc ++ [Output.settled ctx.cid b v]) := by
  have hcids : cids c = ctx.cid :: c.queue.map Context.cid := by
    rw [cids_def, hcur]
    rfl
  have hcidmem : ctx.cid ∈ cids c := by
    rw [hcids]
    exact List.mem_cons_self _ _
  have hcidlt : ctx.cid < c.nextCid := h.ub _ hcidmem
  have hlt : ∀ i ∈ c.queue.map Context.cid, ctx.cid < i := by
    have hs := h.sorted
    rw [hcids] at hs
    exact (List.pairwise_cons.mp hs).1
  have key : ∀ j, j < ctx.cid → SettledIn acc j := by
    intro j hj
    refine h.settledBelow j (lt_trans hj hcidlt) ?_
    rw [hcids]
    intro hmem
    rcases List.mem_cons.mp hmem with h3 | h3
    · subst h3
      exact lt_irrefl _ hj
    · exact absurd hj (not_lt.mpr (le_of_lt (hlt j h3)))
  refine ⟨h.sorted, h.ub, ?_, ?_, ?_, ?_, ?_, ?_, ?_⟩
  · intro j hj hn
    exact settledIn_append.mpr (Or.inl (h.settledBelow j hj hn))
  · intro j hj
    rcases settledIn_append_single hj with ha | ho
    · exact h.settledUB j ha
    · injection ho with h3
      subst h3
      exact hcidlt
  · rcases h.timers with hT | ⟨tid, ctx2, hT, hc2, hfn, _⟩
    · exact Or.inl hT
    · exact Or.inr ⟨tid, ctx2, hT, hc2, hfn⟩
  · intro ctx2 hctx2 hS
    rcases settledIn_append_single hS with ha | ho
    · exact h.queueFresh ctx2 hctx2 ha
    · injection ho with h3
      have hc2 : ctx.cid < ctx2.cid := hlt ctx2.cid (List.mem_map_of_mem Context.cid hctx2)
      rw [h3] at hc2
      exact lt_irrefl _ hc2
  · exact orderedFrom_append acc _ h.ordered (orderedFrom_single rfl key)
  · refine timeoutFirstFrom_append acc _ h.tmofirst ⟨fun i hi hsi => ?_, trivial⟩
    rcases hsi with hfalse | hset
    · exact hfalse
    · exact htmo i hi hset
  · intro ctx2 hctx2
    rw [hcur] at hctx2
    injection hctx2 with h3
    subst h3
    exact settledIn_append.mpr (Or.inr (settledIn_singleton.mpr rfl))

/-- Appending outputs that neither settle nor write preserves `Inv`. -/
theorem inv_append_neutrals {c : Ctrl} {acc : List Output} (h : Inv c acc)
    (l : List Output) (hn : ∀ o ∈ l, Output.touchCid o = none) :
    Inv c (acc ++ l) := by
  have hns : ∀ o ∈ l, Output.settleCid o = none :=
    fun o ho => settleCid_eq_none_of_touch o (hn o ho)
  have hnoSet : ∀ j, ¬ SettledIn l j := fun j => not_settledIn_of_no_settle hns
  refine ⟨h.sorted, h.ub, ?_, ?_, ?_, ?_, ?_, ?_⟩
  · intro j hj hn2
    exact settledIn_append.mpr (Or.inl (h.settledBelow j hj hn2))
  · intro j hj
    rcases settledIn_append.mp hj with ha | hb
    · exact h.settledUB j ha
    · exact absurd hb (hnoSet j)
  · rcases h.timers with hT | ⟨tid, ctx, hT, hc, hfn, hnsld⟩
    · exact Or.inl hT
    · refine Or.inr ⟨tid, ctx, hT, hc, hfn, fun hS => ?_⟩
      rcases settledIn_append.mp hS with ha | hb
      · exact hnsld ha
      · exact hnoSet _ hb
  · intro ctx hctx hS
    rcases settledIn_append.mp hS with ha | hb
    · exact h.queueFresh ctx hctx ha
    · exact hnoSet _ hb
  · exact orderedFrom_append acc l h.ordered (orderedFrom_of_no_touch l hn)
  · refine timeoutFirstFrom_append acc l h.tmofirst
      (timeoutFirstFrom_of_no_timeout l ?_)
    intro o ho
    exact timeoutRejectCid_eq_none_of_settle o (hns o ho)

/-- With no current context, `Inv` already implies the `#processQueue` entry
condition. -/
theorem preInv_of_inv {c : Ctrl} {acc : List Output} (h : Inv c acc)
    (hcur : c.current = none) : PreInv c acc := by
  refine ⟨h.sorted, h.ub, h.settledBelow, h.settledUB, ?_, h.queueFresh, h.ordered,
    h.tmofirst, ?_⟩
  · rcases h.timers with hT | ⟨tid, ctx, hT, hc, hfn, _⟩
    · exact Or.inl hT
    · exact Or.inr ⟨tid, ctx, hT, hc, hfn⟩
  · intro ctx hctx
    rw [hcur] at hctx
    cases hctx

/-- Pushing a fresh context at the queue tail preserves `Inv`. -/
theorem enqueue_inv {c : Ctrl} {acc : List Output} (h : Inv c acc) (p : ReqPayload) :
    Inv (enqueue c p) acc := by
  have hcids : cids (enqueue c p) = cids c ++ [c.nextCid] := by
    rw [cids_def, cids_def]
    show c.current.toList.map Context.cid
        ++ (c.queue ++ [Context.mk c.nextCid p none ""]).map Context.cid = _
    rw [List.map_append, ← List.append_assoc]
    rfl
  refine ⟨?_, ?_, ?_, ?_, ?_, ?_, h.ordered, h.tmofirst⟩
  · rw [hcids]
    refine List.pairwise_append.mpr ⟨h.sorted, List.pairwise_singleton _ _, ?_⟩
    intro a ha i hi
    rw [List.mem_singleton] at hi
    subst hi
    exact h.ub a ha
  · intro i hi
    rw [hcids] at hi
    show i < c.nextCid + 1
    rcases List.mem_append.mp hi with hl | hr
    · exact lt_trans (h.ub i hl) (Nat.lt_succ_self _)
    · rw [List.mem_singleton] at hr
      subst hr
      exact Nat.lt_succ_self _
  · intro j hj hn
    rw [hcids] at hn
    have hj2 : j < c.nextCid + 1 := hj
    have hne : j ≠ c.nextCid := by
      intro he
      exact hn (he ▸ List.mem_append_right _ (List.mem_singleton_self _))
    have hj3 : j < c.nextCid := lt_of_le_of_ne (Nat.lt_succ_iff.mp hj2) hne
    exact h.settledBelow j hj3 (fun hm => hn (List.mem_append_left _ hm))
  · intro j hj
    exact lt_trans (h.settledUB j hj) (Nat.lt_succ_self _)
  · rcases h.timers with hT | ⟨tid, ctx, hT, hc, hfn, hns⟩
    · exact Or.inl hT
    · exact Or.inr ⟨tid, ctx, hT, hc, hfn, hns⟩
  · intro ctx hctx hS
    have hctx2 : ctx ∈ c.queue ++ [Context.mk c.nextCid p none ""] := hctx
    rcases List.mem_append.mp hctx2 with hl | hr
    · exact h.queueFresh ctx hl hS
    · rw [List.mem_singleton] at hr
      subst hr
      exact lt_irrefl _ (h.settledUB _ hS)

/-- Mutating the current context's response buffer preserves `Inv`. -/
theorem withResponse_inv {c : Ctrl} {acc : List Output} {ctx : Context}
    (h : Inv c acc) (hc : c.current = some ctx) (resp : String) :
    Inv (withResponse c ctx resp) acc := by
  have hcids : cids (withResponse c ctx resp) = cids c := by
    rw [cids_def, cids_def, hc]
    rfl
  refine ⟨?_, ?_, ?_, h.settledUB, ?_, h.queueFresh, h.ordered, h.tmofirst⟩
  · rw [hcids]
    exact h.sorted
  · intro i hi
    exact h.ub i (hcids ▸ hi)
  · intro j hj hn
    refine h.settledBelow j hj ?_
    rw [← hcids]
    exact hn
  · rcases h.timers with hT | ⟨tid, ctx2, hT, hc2, hfn, hns⟩
    · exact Or.inl hT
    · rw [hc] at hc2
      injection hc2 with h3
      subst h3
      exact Or.inr ⟨tid, { ctx with response := resp }, hT, rfl, hfn, hns⟩

end SerialportSync

namespace SerialportSync

/-- Invariant statement for the result of one inbound-data handler. -/
def ResultInv (acc : List Output) : StepResult → Prop
  | StepResult.ok c outs => Inv c (acc ++ outs)
  | StepResult.crash outs =>
      OrderedFrom (fun _ => False) (acc ++ outs) ∧
      TimeoutFirstFrom (fun _ => False) (acc ++ outs)

/-- The buffer-then-success tail of `#handleStringData` preserves the
invariant, whatever the computed buffer value and success-test outcome. -/
theorem settle_branch_inv {c : Ctrl} {acc : List Output} {ctx : Context}
    (h : Inv c acc) (hc : c.current = some ctx) (resp : String) (sx : Bool) :
    ResultInv acc
      (if sx then
        StepResult.ok (processQueue (withResponse c ctx resp)).1
          (Output.settled ctx.cid true (SettleValue.str resp) ::
            (processQueue (withResponse c ctx resp)).2)
      else StepResult.ok (withResponse c ctx resp) []) := by
  have hw := withResponse_inv h hc resp
  rcases sx with _ | _
  · show Inv (withResponse c ctx resp) (acc ++ ([] : List Output))
    rw [List.append_nil]
    exact hw
  · show Inv (processQueue (withResponse c ctx resp)).1
      (acc ++ (Output.settled ctx.cid true (SettleValue.str resp) ::
        (processQueue (withResponse c ctx resp)).2))
    have hp := pq_inv (preInv_of_settle hw rfl true (SettleValue.str resp)
      (fun i hi => Option.noConfusion hi))
    rw [List.append_assoc] at hp
    exact hp

/-- `#handleStringData` preserves the invariant (or leaves FIFO-ordered
outputs behind when it throws). -/
theorem hsd_inv {c : Ctrl} {acc : List Output} (h : Inv c acc) (m : String) :
    ResultInv acc (handleStringData c m) := by
  unfold handleStringData
  rcases hh : findHandlerIdx c.handlers m with _ | i
  · rcases hc : c.current with _ | ctx
    · show Inv c (acc ++
        [Output.warned "Unexpected inbound message, no active handler",
         Output.unexpectedData (SerialData.text m)])
      refine inv_append_neutrals h _ ?_
      intro o ho
      rcases List.mem_cons.mp ho with h1 | h1
      · subst h1
        rfl
      · rcases List.mem_cons.mp h1 with h2 | h2
        · subst h2
          rfl
        · cases h2
    · obtain ⟨cid0, pay, tf0, resp0⟩ := ctx
      rcases pay with r | b
      · show ResultInv acc
          (if errorMatches r m then
            StepResult.ok (processQueue c).1
              (Output.settled cid0 false (SettleValue.errStr resp0) ::
                (processQueue c).2)
          else
            let resp :=
              if bufferMatches r m && !(r.data == SerialData.text m) then
                if resp0 = "" then m else resp0 ++ "\n" ++ m
              else resp0
            let c3 := withResponse c (Context.mk cid0 (ReqPayload.regex r) tf0 resp0) resp
            if r.successRegex m then
              StepResult.ok (processQueue c3).1
                (Output.settled cid0 true (SettleValue.str resp) :: (processQueue c3).2)
            else StepResult.ok c3 [])
        by_cases he : errorMatches r m
        · rw [if_pos he]
          show Inv (processQueue c).1
            (acc ++ (Output.settled cid0 false (SettleValue.errStr resp0) ::
              (processQueue c).2))
          have hpq := pq_inv (preInv_of_settle h hc false (SettleValue.errStr resp0)
            (fun i hi => Option.noConfusion hi))
          rw [List.append_assoc] at hpq
          exact hpq
        · rw [if_neg he]
          exact settle_branch_inv h hc _ _
      · show OrderedFrom (fun _ => False) (acc ++ ([] : List Output)) ∧
          TimeoutFirstFrom (fun _ => False) (acc ++ ([] : List Output))
        rw [List.append_nil]
        exact ⟨h.ordered, h.tmofirst⟩
  · show Inv c (acc ++ [Output.handlerCalled i m])
    refine inv_append_neutrals h _ ?_
    intro o ho
    rcases List.mem_cons.mp ho with h1 | h1
    · subst h1
      rfl
    · cases h1

/-- `#handleBufferData` preserves the invariant (or, on the missing-`return`
crash, leaves FIFO-ordered outputs behind). -/
theorem hbd_inv {c : Ctrl} {acc : List Output} (h : Inv c acc) (b : List Nat) :
    ResultInv acc (handleBufferData c b) := by
  unfold handleBufferData
  rcases hc : c.current with _ | ctx
  · show OrderedFrom (fun _ => False) (acc ++
        [Output.warned "Unexpected inbound message, no active handler",
         Output.unexpectedData (SerialData.buffer b)]) ∧
      TimeoutFirstFrom (fun _ => False) (acc ++
        [Output.warned "Unexpected inbound message, no active handler",
         Output.unexpectedData (SerialData.buffer b)])
    have hn : ∀ o ∈ [Output.warned "Unexpected inbound message, no active handler",
        Output.unexpectedData (SerialData.buffer b)], Output.touchCid o = none := by
      intro o ho
      rcases List.mem_cons.mp ho with h1 | h1
      · subst h1
        rfl
      · rcases List.mem_cons.mp h1 with h2 | h2
        · subst h2
          rfl
        · cases h2
    constructor
    · exact orderedFrom_append acc _ h.ordered (orderedFrom_of_no_touch _ hn)
    · refine timeoutFirstFrom_append acc _ h.tmofirst
        (timeoutFirstFrom_of_no_timeout _ ?_)
      intro o ho
      exact timeoutRejectCid_eq_none_of_settle o (settleCid_eq_none_of_touch o (hn o ho))
  · have hd := disableBinaryMode_fields c
    have hw : Inv (disableBinaryMode c) acc := inv_congr h hd.1 hd.2.1 hd.2.2.1 hd.2.2.2
    have hc2 : (disableBinaryMode c).current = some ctx := by
      rw [hd.1, hc]
    show Inv (processQueue (disableBinaryMode c)).1
      (acc ++ (Output.settled ctx.cid true (SettleValue.buf b) ::
        (processQueue (disableBinaryMode c)).2))
    have hpq := pq_inv (preInv_of_settle hw hc2 true (SettleValue.buf b)
      (fun i hi => Option.noConfusion hi))
    rw [List.append_assoc] at hpq
    exact hpq

theorem inv_clear_timers {c : Ctrl} {acc : List Output} (h : Inv c acc) :
    Inv { c with activeTimers := [] } acc :=
  ⟨h.sorted, h.ub, h.settledBelow, h.settledUB, Or.inl rfl, h.queueFresh,
   h.ordered, h.tmofirst⟩

/-- Firing the armed timer preserves the invariant. -/
theorem fireTimer_inv {c : Ctrl} {acc : List Output} {tid : Nat} {ctx : Context}
    (h : Inv c acc) (hT : c.activeTimers = [(tid, ctx.cid)]) (hc : c.current = some ctx)
    (hfn : ctx.timeoutFn = some tid) (hns : ¬ SettledIn acc ctx.cid) :
    Inv (fireTimer c tid ctx.cid).1 (acc ++ (fireTimer c tid ctx.cid).2) := by
  have hf : c.activeTimers.filter (fun p => p.1 != tid) = [] := by
    rw [hT]
    simp
  have he : fireTimer c tid ctx.cid
      = ((processQueue { c with activeTimers := [] }).1,
         Output.warned "Request timeout" ::
         Output.settled ctx.cid false (SettleValue.err ErrKind.timeout) ::
         (processQueue { c with activeTimers := [] }).2) := by
    unfold fireTimer
    rw [hf]
  rw [he]
  have h0 : Inv { c with activeTimers := [] } acc := inv_clear_timers h
  have h1 : Inv { c with activeTimers := [] } (acc ++ [Output.warned "Request timeout"]) := by
    refine inv_append_neutrals h0 _ ?_
    intro o ho
    rcases List.mem_cons.mp ho with h2 | h2
    · subst h2
      rfl
    · cases h2
  have hns2 : ¬ SettledIn (acc ++ [Output.warned "Request timeout"]) ctx.cid := by
    intro hS
    rcases settledIn_append_single hS with ha | ho
    · exact hns ha
    · exact Option.noConfusion ho
  have hpre := preInv_of_settle h1 hc false (SettleValue.err ErrKind.timeout)
    (fun i hi => by
      injection hi with h3
      subst h3
      exact hns2)
  have hpq := pq_inv hpre
  rw [List.append_assoc, List.append_assoc] at hpq
  exact hpq

/-- The shared submit tail (`push`, then `#processQueue` when idle) preserves
the invariant. -/
theorem submit_inv {c : Ctrl} {acc : List Output} (h : Inv c acc) (p : ReqPayload) :
    Inv (match c.current with
         | none => processQueue (enqueue c p)
         | some _ => (enqueue c p, ([] : List Output))).1
        (acc ++ (match c.current with
         | none => processQueue (enqueue c p)
         | some _ => (enqueue c p, ([] : List Output))).2) := by
  rcases hc : c.current with _ | ctx
  · have he := enqueue_inv h p
    have hcur2 : (enqueue c p).current = none := by
      show c.current = none
      exact hc
    exact pq_inv (preInv_of_inv he hcur2)
  · show Inv (enqueue c p) (acc ++ ([] : List Output))
    rw [List.append_nil]
    exact enqueue_inv h p

/-- `regexRequest` preserves the invariant. -/
theorem regexRequest_inv {c : Ctrl} {acc : List Output} (h : Inv c acc)
    (r : RegexRequest) :
    Inv (regexRequest c r).1 (acc ++ (regexRequest c r).2) :=
  submit_inv h _

/-- `binaryRequest` preserves the invariant. -/
theorem binaryRequest_inv {c : Ctrl} {acc : List Output} (h : Inv c acc)
    (b : BinaryRequest) :
    Inv (binaryRequest c b).1 (acc ++ (binaryRequest c b).2) :=
  submit_inv h _

end SerialportSync

namespace SerialportSync

/-- Invariant statement for a finished run. -/
def RunInv : RunResult → Prop
  | RunResult.ok c outs => Inv c outs
  | RunResult.crashed outs =>
      OrderedFrom (fun _ => False) outs ∧ TimeoutFirstFrom (fun _ => False) outs

/-- The freshly constructed controller satisfies the invariant. -/
theorem inv_init (hs : List Handler) : Inv (initCtrl hs) [] := by
  refine ⟨List.Pairwise.nil, ?_, ?_, ?_, Or.inl rfl, ?_, trivial, trivial⟩
  · intro i hi
    cases hi
  · intro j hj _
    exact absurd hj (Nat.not_lt_zero j)
  · intro j hj
    exact absurd hj (settledIn_nil j)
  · intro ctx hctx
    cases hctx

/-- The main induction: every event dispatch preserves the invariant, so any
run from an invariant state ends in an invariant state (or crashes leaving
FIFO-ordered outputs). -/
theorem run_inv : ∀ (es : List Event) (c : Ctrl) (acc : List Output),
    Inv c acc → RunInv (run c acc es) := by
  intro es
  induction es with
  | nil => intro c acc h; exact h
  | cons e es ih =>
    intro c acc h
    show RunInv (match step c e with
      | none => run c acc es
      | some (StepResult.ok c2 outs) => run c2 (acc ++ outs) es
      | some (StepResult.crash outs) => RunResult.crashed (acc ++ outs))
    rcases e with r | b | m | bytes | tid | _ | _
    · -- submitRegex
      show RunInv (run (regexRequest c r).1 (acc ++ (regexRequest c r).2) es)
      exact ih _ _ (regexRequest_inv h r)
    · -- submitBinary
      show RunInv (run (binaryRequest c b).1 (acc ++ (binaryRequest c b).2) es)
      exact ih _ _ (binaryRequest_inv h b)
    · -- lineData
      rcases hg : c.serialOpen && c.linePiped with _ | _
      · have hstep : step c (Event.lineData m) = none := by
          show (if c.serialOpen && c.linePiped then some (handleStringData c m)
              else none) = none
          rw [hg]
          rfl
        rw [hstep]
        exact ih c acc h
      · have hstep : step c (Event.lineData m) = some (handleStringData c m) := by
          show (if c.serialOpen && c.linePiped then some (handleStringData c m)
              else none) = some (handleStringData c m)
          rw [hg]
          rfl
        rw [hstep]
        rcases hr : handleStringData c m with ⟨c2, outs⟩ | outs
        · have h2 := hsd_inv h m
          rw [hr] at h2
          exact ih c2 (acc ++ outs) h2
        · have h2 := hsd_inv h m
          rw [hr] at h2
          exact h2
    · -- chunkData
      rcases hg : c.serialOpen && c.binPiped with _ | _
      · have hstep : step c (Event.chunkData bytes) = none := by
          show (if c.serialOpen && c.binPiped then some (handleBufferData c bytes)
              else none) = none
          rw [hg]
          rfl
        rw [hstep]
        exact ih c acc h
      · have hstep : step c (Event.chunkData bytes)
            = some (handleBufferData c bytes) := by
          show (if c.serialOpen && c.binPiped then some (handleBufferData c bytes)
              else none) = some (handleBufferData c bytes)
          rw [hg]
          rfl
        rw [hstep]
        rcases hr : handleBufferData c bytes with ⟨c2, outs⟩ | outs
        · have h2 := hbd_inv h bytes
          rw [hr] at h2
          exact ih c2 (acc ++ outs) h2
        · have h2 := hbd_inv h bytes
          rw [hr] at h2
          exact h2
    · -- timerFire
      rcases h.timers with hT | ⟨tid0, ctx, hT, hc, hfn, hns⟩
      · have hstep : step c (Event.timerFire tid) = none := by
          show (match lookupTimer c.activeTimers tid with
            | some cid => some (StepResult.ok (fireTimer c tid cid).1
                (fireTimer c tid cid).2)
            | none => none) = none
          rw [show lookupTimer c.activeTimers tid = none from by
            unfold lookupTimer
            rw [hT]
            rfl]
        rw [hstep]
        exact ih c acc h
      · by_cases he : tid0 = tid
        · subst he
          have hlook : lookupTimer c.activeTimers tid0 = some ctx.cid := by
            unfold lookupTimer
            rw [hT]
            simp [List.find?]
          have hstep : step c (Event.timerFire tid0)
              = some (StepResult.ok (fireTimer c tid0 ctx.cid).1
                  (fireTimer c tid0 ctx.cid).2) := by
            show (match lookupTimer c.activeTimers tid0 with
              | some cid => some (StepResult.ok (fireTimer c tid0 cid).1
                  (fireTimer c tid0 cid).2)
              | none => none) = _
            rw [hlook]
          rw [hstep]
          exact ih _ _ (fireTimer_inv h hT hc hfn hns)
        · have hlook : lookupTimer c.activeTimers tid = none := by
            unfold lookupTimer
            rw [hT]
            have hbe : (tid0 == tid) = false := beq_eq_false_iff_ne.mpr he
            simp [List.find?, hbe]
          have hstep : step c (Event.timerFire tid) = none := by
            show (match lookupTimer c.activeTimers tid with
              | some cid => some (StepResult.ok (fireTimer c tid cid).1
                  (fireTimer c tid cid).2)
              | none => none) = none
            rw [hlook]
          rw [hstep]
          exact ih c acc h
    · -- openPort
      rcases hso : c.serialOpen with _ | _
      · have hstep : step c Event.openPort
            = some (StepResult.ok { c with serialOpen := true } []) := by
          show (if c.serialOpen then none
              else some (StepResult.ok { c with serialOpen := true } [])) = _
          rw [hso]
          rfl
        rw [hstep]
        show RunInv (run { c with serialOpen := true } (acc ++ []) es)
        rw [List.append_nil]
        exact ih _ _ (inv_congr h rfl rfl rfl rfl)
      · have hstep : step c Event.openPort = none := by
          show (if c.serialOpen then none
              else some (StepResult.ok { c with serialOpen := true } [])) = none
          rw [hso]
          rfl
        rw [hstep]
        exact ih c acc h
    · -- closePort
      rcases hso : c.serialOpen with _ | _
      · have hstep : step c Event.closePort = some (StepResult.ok c []) := by
          show some (StepResult.ok (if c.serialOpen then { c with serialOpen := false }
              else c) []) = some (StepResult.ok c [])
          rw [hso]
          rfl
        rw [hstep]
        show RunInv (run c (acc ++ []) es)
        rw [List.append_nil]
        exact ih c acc h
      · have hstep : step c Event.closePort
            = some (StepResult.ok { c with serialOpen := false } []) := by
          show some (StepResult.ok (if c.serialOpen then { c with serialOpen := false }
              else c) []) = _
          rw [hso]
          rfl
        rw [hstep]
        show RunInv (run { c with serialOpen := false } (acc ++ []) es)
        rw [List.append_nil]
        exact ih _ _ (inv_congr h rfl rfl rfl rfl)

end SerialportSync

namespace SerialportSync

def RunResult.timersUnsettled : RunResult → Prop
  | RunResult.ok c outs => ∀ p ∈ c.activeTimers, ¬ SettledIn outs p.2
  | RunResult.crashed _ => True

/-- **C6.** Over every event trace from a fresh controller, outputs are
strictly FIFO in submission order: whenever context `i` is settled or its
payload is written, every earlier-submitted context `j < i` already has a
settlement earlier in the output list.  In particular request N's payload
is never written before request N−1 has settled, and first settlements
occur in submission order — text and stream-capture requests share the one
queue. -/
theorem fifo_settlement_and_write_order (hs : List Handler) (es : List Event) :
    OrderedFrom (fun _ => False) (run (initCtrl hs) [] es).outs := by
  have h := run_inv es (initCtrl hs) [] (inv_init hs)
  rcases hr : run (initCtrl hs) [] es with ⟨c, outs⟩ | outs
  · rw [hr] at h
    exact h.ordered
  · rw [hr] at h
    exact h.1

theorem fifo_settlement_and_write_order_witness :
    OrderedFrom (fun _ => False)
      (run (initCtrl []) [] [Event.openPort, Event.submitRegex reqStall,
        Event.submitRegex reqStall, Event.lineData "OK"]).outs :=
  fifo_settlement_and_write_order [] [Event.openPort, Event.submitRegex reqStall,
    Event.submitRegex reqStall, Event.lineData "OK"]

/-- **C9.** Over every event trace from a fresh controller: (1) in the final
state every armed timer belongs to a context with no settlement so far —
settling a context always cancels its timer in the same dispatch, so no
armed timer ever points at a settled context (and since every reachable
state is the final state of some trace, this holds at every reachable
state); and (2) every timeout rejection in the output list is the first
settlement of its context — a timeout never fires against an
already-settled or later context. -/
theorem timer_cancelled_on_settlement (hs : List Handler) (es : List Event) :
    (run (initCtrl hs) [] es).timersUnsettled ∧
    TimeoutFirstFrom (fun _ => False) (run (initCtrl hs) [] es).outs := by
  have h := run_inv es (initCtrl hs) [] (inv_init hs)
  rcases hr : run (initCtrl hs) [] es with ⟨c, outs⟩ | outs
  · rw [hr] at h
    refine ⟨?_, h.tmofirst⟩
    intro p hp
    rcases h.timers with hT | ⟨tid, ctx, hT, hc, hfn, hns⟩
    · rw [hT] at hp
      cases hp
    · rw [hT] at hp
      rw [List.mem_singleton] at hp
      subst hp
      exact hns
  · rw [hr] at h
    exact ⟨trivial, h.2⟩

/-- A text request with a positive timeout, for exercising the timer path. -/
def reqTmo : RegexRequest :=
  { data := SerialData.text "AT", timeoutMs := 50, successRegex := fun s => s == "OK" }

theorem timer_cancelled_on_settlement_witness :
    (run (initCtrl []) [] [Event.openPort, Event.submitRegex reqTmo,
      Event.lineData "OK", Event.timerFire 0]).timersUnsettled ∧
    TimeoutFirstFrom (fun _ => False)
      (run (initCtrl []) [] [Event.openPort, Event.submitRegex reqTmo,
        Event.lineData "OK", Event.timerFire 0]).outs :=
  timer_cancelled_on_settlement [] [Event.openPort, Event.submitRegex reqTmo,
    Event.lineData "OK", Event.timerFire 0]

end SerialportSync
